import Mathlib

/-!
Verification of the OpenAI↔Kiro protocol-translation gateway (kiro.rs).

Strings are modelled as lists of Unicode scalar values (`List Char`); this
matches Rust's `str` at the code-point level, and the byte-index arithmetic of
the source (`find`, slicing) is faithful because every pattern searched for is
ASCII, so byte-level occurrences coincide with code-point-level occurrences.
Machine integers (`i32`, `usize`) are modelled as `Int`/`Nat`; no claim
exercises wrap-around. `f64` percentages are modelled as `ℚ`; the only f64
computation in scope is `percentage * 200000 / 100` followed by an `as i32`
cast (truncation toward zero), and every concrete percentage used below is a
dyadic rational on which f64 arithmetic is exact.
-/

abbrev Str := List Char

/-- Boolean prefix test on character lists, mirroring Rust's starts_with. -/
def isPrefixL : Str → Str → Bool
  | [], _ => true
  | _ :: _, [] => false
  | a :: as, b :: bs => a == b && isPrefixL as bs

/-- First index at which the pattern occurs, mirroring Rust's str::find
(restricted to code-point indices, equivalent for ASCII patterns). -/
def findSub (pat : Str) : Str → Option Nat
  | [] => if isPrefixL pat [] then some 0 else none
  | c :: rest =>
    if isPrefixL pat (c :: rest) then some 0
    else (findSub pat rest).map (· + 1)

/-- Substring test, mirroring Rust's str::contains. -/
def containsStr (s pat : Str) : Bool := (findSub pat s).isSome

/-- Per-character lowercasing, modelling Rust's str::to_lowercase. The full
Unicode mapping differs from the per-character one only on special cases
(such as the Kelvin sign) none of which lowercases to a letter of the two
patterns searched for by map_model. -/
def toLowerStr (s : Str) : Str := s.map Char.toLower

def sonnetLit : Str := "sonnet".data

def opusLit : Str := "opus".data

def sonnetModelId : Str := "claude-sonnet-4.5".data

def opusModelId : Str := "claude-opus-4.5".data

def haikuModelId : Str := "claude-haiku-4.5".data

/-- Model mapping from converter.rs map_model: case-insensitive substring
sonnet, then opus, defaulting to haiku; never returns None. -/
def map_model (model : Str) : Option Str :=
  let model_lower := toLowerStr model
  if containsStr model_lower sonnetLit then some sonnetModelId
  else if containsStr model_lower opusLit then some opusModelId
  else some haikuModelId

def modelBothLit : Str := "Claude-Opus-Sonnet".data

/-!
JSON values (serde_json::Value). Only the literals constructed by the
converter are ever inspected by the claims; values parsed from client
strings are kept abstract via the fromRaw constructor.
-/

/-- Model of serde_json::Value. The fromRaw constructor stands for the result
of serde_json::from_str on the given source string with the empty-object
fallback (converter.rs line 349); the repository never inspects that value, it
only stores and re-serializes it, so identifying it by its source text is a
faithful abstraction of the external parser. -/
inductive Json where
  | str (s : Str)
  | bool (b : Bool)
  | num (n : Int)
  | arr (elems : List Json)
  | obj (fields : List (Str × Json))
  | fromRaw (source : Str)

/-- Input schema wrapper from the kiro request model (InputSchema::from_json).
The kiro model crate is not under src/; its constructors, visible from the
converter's call sites, are plain data builders. -/
structure InputSchema where
  json : Json

def InputSchema.from_json (j : Json) : InputSchema := ⟨j⟩

/-- Tool specification from the kiro request model (plain data, fields as
used by converter.rs). -/
structure ToolSpecification where
  name : Str
  description : Str
  input_schema : InputSchema

structure KTool where
  tool_specification : ToolSpecification

/-- Tool use entry in an assistant history message (kiro model, plain data).
ToolUseEntry::new(id, name).with_input(input). -/
structure ToolUseEntry where
  tool_use_id : Str
  name : Str
  input : Json

/-- Tool result from the kiro request model. ToolResult::success(id, content)
builds an entry with success status. -/
structure KToolResult where
  tool_use_id : Str
  content : Str
  status : Str
  deriving DecidableEq

def successLit : Str := "success".data

def KToolResult.success (tool_use_id content : Str) : KToolResult :=
  ⟨tool_use_id, content, successLit⟩

/-- Kiro image (KiroImage::from_base64 format data). -/
structure KiroImage where
  format : Str
  data : Str
  deriving DecidableEq

/-- History entry of the Kiro conversation state: the Message enum of the kiro
request model, either a user entry (UserMessage content, model id, images) or
an assistant entry (AssistantMessage content with optional tool uses). -/
inductive KMessage where
  | user (content : Str) (model_id : Str) (images : List KiroImage)
  | assistant (content : Str) (tool_uses : Option (List ToolUseEntry))

/-- Context attached to the current user message: tools and tool results.
The Rust builder omits empty fields at the serialization level only. -/
structure UserInputMessageContext where
  tools : List KTool
  tool_results : List KToolResult

structure UserInputMessage where
  content : Str
  model_id : Str
  images : List KiroImage
  origin : Str
  context : UserInputMessageContext

structure CurrentMessage where
  user_input_message : UserInputMessage

structure ConversationState where
  conversation_id : Str
  agent_continuation_id : Str
  agent_task_type : Str
  chat_trigger_type : Str
  current_message : CurrentMessage
  history : List KMessage

/-!
OpenAI request types (types.rs).
-/

structure FunctionCall where
  name : Str
  arguments : Str
  deriving DecidableEq

structure OToolCall where
  id : Str
  call_type : Str
  function : FunctionCall
  deriving DecidableEq

/-- Function definition of an OpenAI tool. The parameters HashMap is modelled
as an association list of JSON fields (json!(p) turns it into an object). -/
structure FunctionDefinition where
  name : Str
  description : Option Str
  parameters : Option (List (Str × Json))

structure OTool where
  tool_type : Str
  function : FunctionDefinition

structure ImageUrl where
  url : Str
  detail : Option Str

inductive ContentPart where
  | text (text : Str)
  | imageUrl (image_url : ImageUrl)

inductive MessageContent where
  | text (s : Str)
  | parts (parts : List ContentPart)

structure ChatMessage where
  role : Str
  content : Option MessageContent
  tool_calls : Option (List OToolCall)
  tool_call_id : Option Str
  name : Option Str

structure StreamOptions where
  include_usage : Option Bool

structure ChatCompletionRequest where
  model : Str
  messages : List ChatMessage
  max_tokens : Option Int
  max_completion_tokens : Option Int
  stream : Option Bool
  tools : Option (List OTool)
  stream_options : Option StreamOptions

/-- ChatCompletionRequest::effective_max_tokens. -/
def ChatCompletionRequest.effective_max_tokens (req : ChatCompletionRequest) : Int :=
  match req.max_completion_tokens with
  | some v => v
  | none => match req.max_tokens with
    | some v => v
    | none => 4096

/-- ChatCompletionRequest::is_stream. -/
def ChatCompletionRequest.is_stream (req : ChatCompletionRequest) : Bool :=
  req.stream.getD false

/-- ChatCompletionRequest::include_usage_in_stream. -/
def ChatCompletionRequest.include_usage_in_stream (req : ChatCompletionRequest) : Bool :=
  match req.stream_options with
  | some o => o.include_usage.getD false
  | none => false

/-!
Request transcoder (converter.rs).
-/

inductive ConversionError where
  | UnsupportedModel (model : Str)
  | EmptyMessages
  | InvalidImageUrl (url : Str)
  deriving DecidableEq

structure ConversionResult where
  conversation_state : ConversationState
  original_model : Str

def nlChar : Char := '\n'

def nlStr : Str := [nlChar]

def systemLit : Str := "system".data

def userLit : Str := "user".data

def assistantLit : Str := "assistant".data

def toolLit : Str := "tool".data

def functionLit : Str := "function".data

def dataSchemeLit : Str := "data:".data

def httpSchemeLit : Str := "http://".data

def httpsSchemeLit : Str := "https://".data

def imagePngLit : Str := "image/png".data

def imageJpegLit : Str := "image/jpeg".data

def imageJpgLit : Str := "image/jpg".data

def imageGifLit : Str := "image/gif".data

def imageWebpLit : Str := "image/webp".data

def pngLit : Str := "png".data

def jpegLit : Str := "jpeg".data

def gifLit : Str := "gif".data

def webpLit : Str := "webp".data

def followInstructionsLit : Str := "I will follow these instructions.".data

def okLit : Str := "OK".data

def vibeLit : Str := "vibe".data

def manualLit : Str := "MANUAL".data

def aiEditorLit : Str := "AI_EDITOR".data

def typeLit : Str := "type".data

def objectLit : Str := "object".data

def propertiesLit : Str := "properties".data

def requiredLit : Str := "required".data

def schemaKeyLit : Str := "$schema".data

def draft7Lit : Str := "http://json-schema.org/draft-07/schema#".data

def additionalPropertiesLit : Str := "additionalProperties".data

def placeholderDescriptionLit : Str := "Tool used in conversation history".data

/-- Split a string at the first occurrence of a character, mirroring Rust's
splitn(2, c); none when the character does not occur (the one-part case). -/
def splitOnceChar (c : Char) : Str → Option (Str × Str)
  | [] => none
  | x :: xs =>
    if x == c then some ([], xs)
    else (splitOnceChar c xs).map (fun p => (x :: p.1, p.2))

/-- extract_text_content from converter.rs. -/
def extract_text_content (content : Option MessageContent) : Str :=
  match content with
  | some (.text s) => s
  | some (.parts parts) =>
    List.intercalate nlStr (parts.filterMap (fun p =>
      match p with
      | .text t => some t
      | _ => none))
  | none => []

/-- parse_image_url from converter.rs. -/
def parse_image_url (url : Str) : Except ConversionError (Option KiroImage) :=
  if isPrefixL dataSchemeLit url then
    match splitOnceChar ',' url with
    | none => .error (.InvalidImageUrl url)
    | some (header, dat) =>
      if containsStr header imagePngLit then .ok (some ⟨pngLit, dat⟩)
      else if containsStr header imageJpegLit || containsStr header imageJpgLit then
        .ok (some ⟨jpegLit, dat⟩)
      else if containsStr header imageGifLit then .ok (some ⟨gifLit, dat⟩)
      else if containsStr header imageWebpLit then .ok (some ⟨webpLit, dat⟩)
      else .error (.InvalidImageUrl url)
  else if isPrefixL httpSchemeLit url || isPrefixL httpsSchemeLit url then .ok none
  else .error (.InvalidImageUrl url)

/-- Loop body of extract_content_with_images: texts and images of the parts
in order. -/
def extractPartsLoop : List ContentPart → Except ConversionError (List Str × List KiroImage)
  | [] => .ok ([], [])
  | .text t :: rest => do
    let (ts, imgs) ← extractPartsLoop rest
    .ok (t :: ts, imgs)
  | .imageUrl iu :: rest => do
    let img ← parse_image_url iu.url
    let (ts, imgs) ← extractPartsLoop rest
    .ok (ts, (match img with | some i => [i] | none => []) ++ imgs)

/-- extract_content_with_images from converter.rs. -/
def extract_content_with_images (content : Option MessageContent) :
    Except ConversionError (Str × List KiroImage) :=
  match content with
  | some (.text s) => .ok (s, [])
  | some (.parts parts) => do
    let (ts, imgs) ← extractPartsLoop parts
    .ok (List.intercalate nlStr ts, imgs)
  | none => .ok ([], [])

/-- merge_user_buffer from converter.rs: texts of the buffered user messages
(nonempty ones) newline-joined, images concatenated in order. -/
def merge_user_buffer (buffer : List (Str × List KiroImage)) (model_id : Str) : KMessage :=
  let content_parts := buffer.filterMap (fun p => if p.1.isEmpty then none else some p.1)
  let all_images := buffer.foldl (fun acc p => acc ++ p.2) []
  KMessage.user (List.intercalate nlStr content_parts) model_id all_images

/-- convert_assistant_message from converter.rs. The Rust function returns a
Result but has no error path (the JSON arguments parse falls back to an empty
object, modelled by Json.fromRaw), so it is total here. -/
def convert_assistant_message (msg : ChatMessage) : KMessage :=
  let text_content := extract_text_content msg.content
  let tool_uses : List ToolUseEntry :=
    match msg.tool_calls with
    | some calls => calls.map (fun c => ⟨c.id, c.function.name, Json.fromRaw c.function.arguments⟩)
    | none => []
  KMessage.assistant text_content (if tool_uses.isEmpty then none else some tool_uses)

def defaultSchemaJson : Json :=
  Json.obj [(typeLit, .str objectLit), (propertiesLit, .obj []), (requiredLit, .arr [])]

def placeholderSchemaJson : Json :=
  Json.obj [(schemaKeyLit, .str draft7Lit), (typeLit, .str objectLit),
    (propertiesLit, .obj []), (requiredLit, .arr []), (additionalPropertiesLit, .bool true)]

/-- convert_tools from converter.rs: keep tools of type function, truncate the
description to its first 10000 code points (char_indices().nth(10000) is some
exactly when the description has more than 10000 chars), default the schema
when parameters are omitted. -/
def convert_tools (tools : Option (List OTool)) : List KTool :=
  match tools with
  | none => []
  | some ts =>
    (ts.filter (fun t => t.tool_type == functionLit)).map (fun t =>
      let description := t.function.description.getD []
      let description :=
        if 10000 < description.length then description.take 10000 else description
      let input_schema :=
        match t.function.parameters with
        | some p => InputSchema.from_json (Json.obj p)
        | none => InputSchema.from_json defaultSchemaJson
      ⟨⟨t.function.name, description, input_schema⟩⟩)

/-- collect_history_tool_names from converter.rs: first-seen order, exact
(case-sensitive) dedup. -/
def collect_history_tool_names (history : List KMessage) : List Str :=
  history.foldl (fun acc m =>
    match m with
    | .assistant _ (some tus) =>
      tus.foldl (fun a tu => if a.contains tu.name then a else a ++ [tu.name]) acc
    | _ => acc) []

/-- create_placeholder_tool from converter.rs. -/
def create_placeholder_tool (name : Str) : KTool :=
  ⟨⟨name, placeholderDescriptionLit, InputSchema.from_json placeholderSchemaJson⟩⟩

/-- Ids of all tool uses in assistant history entries. The Rust code collects
them into a HashSet; a plain list is extensionally equivalent because the set
is only read through contains and element removal, and the removal below
filters out every copy of the matched id. -/
def toolUseIdsOfHistory : List KMessage → List Str
  | [] => []
  | .assistant _ (some tus) :: rest =>
    tus.map (fun tu => tu.tool_use_id) ++ toolUseIdsOfHistory rest
  | _ :: rest => toolUseIdsOfHistory rest

/-- Filtering loop of validate_tool_pairing: keep a result iff its id is in
the valid set, consuming the id on a match. -/
def pairLoop : List Str → List KToolResult → List KToolResult
  | _, [] => []
  | valid, r :: rest =>
    if valid.contains r.tool_use_id then
      r :: pairLoop (valid.filter (fun v => !(v == r.tool_use_id))) rest
    else pairLoop valid rest

/-- validate_tool_pairing from converter.rs. -/
def validate_tool_pairing (history : List KMessage) (tool_results : List KToolResult) :
    List KToolResult :=
  pairLoop (toolUseIdsOfHistory history) tool_results

/-- Mutable locals of process_messages. -/
structure PMState where
  system_content : Str
  history : List KMessage
  last_user_content : Str
  last_images : List KiroImage
  tool_results : List KToolResult
  user_buffer : List (Str × List KiroImage)

def initPMState : PMState := ⟨[], [], [], [], [], []⟩

/-- One iteration of the process_messages loop over one incoming message;
is_last tells whether this is the final element of the message array. -/
def processRound (model_id : Str) (st : PMState) (msg : ChatMessage) (is_last : Bool) :
    Except ConversionError PMState :=
  if msg.role == systemLit then
    let text := extract_text_content msg.content
    .ok { st with system_content :=
      (if st.system_content.isEmpty then st.system_content
       else st.system_content ++ nlStr) ++ text }
  else if msg.role == userLit then do
    let (text, images) ← extract_content_with_images msg.content
    if is_last then .ok { st with last_user_content := text, last_images := images }
    else .ok { st with user_buffer := st.user_buffer ++ [(text, images)] }
  else if msg.role == assistantLit then
    let st :=
      if st.user_buffer.isEmpty then st
      else { st with history := st.history ++ [merge_user_buffer st.user_buffer model_id],
                     user_buffer := [] }
    .ok { st with history := st.history ++ [convert_assistant_message msg] }
  else if msg.role == toolLit then
    match msg.tool_call_id with
    | some tcid =>
      .ok { st with tool_results :=
        st.tool_results ++ [KToolResult.success tcid (extract_text_content msg.content)] }
    | none => .ok st
  else .ok st

/-- The for-loop of process_messages. -/
def processLoop (model_id : Str) : PMState → List ChatMessage → Except ConversionError PMState
  | st, [] => .ok st
  | st, msg :: rest => do
    let st' ← processRound model_id st msg rest.isEmpty
    processLoop model_id st' rest

/-- Trailing-buffer flush of process_messages: a leftover user buffer becomes
one history user entry auto-paired with a synthetic OK assistant entry. -/
def flushTrailingUsers (model_id : Str) (st : PMState) : PMState :=
  if st.user_buffer.isEmpty then st
  else { st with
    history := st.history ++
      [merge_user_buffer st.user_buffer model_id, KMessage.assistant okLit none],
    user_buffer := [] }

/-- process_messages from converter.rs. -/
def process_messages (messages : List ChatMessage) (model_id : Str) :
    Except ConversionError (Str × List KMessage × Str × List KiroImage × List KToolResult) := do
  let st ← processLoop model_id initPMState messages
  let st := flushTrailingUsers model_id st
  .ok (st.system_content, st.history, st.last_user_content, st.last_images, st.tool_results)

/-- convert_request from converter.rs. The two random v4 identifiers are
passed in explicitly (the source draws them from the uuid crate). -/
def convert_request (conversation_id agent_continuation_id : Str)
    (req : ChatCompletionRequest) : Except ConversionError ConversionResult := do
  let model_id ← match map_model req.model with
    | some m => Except.ok m
    | none => Except.error (ConversionError.UnsupportedModel req.model)
  if req.messages.isEmpty then Except.error ConversionError.EmptyMessages
  else do
    let (system_content, history, last_user_content, last_images, tool_results) ←
      process_messages req.messages model_id
    let tools := convert_tools req.tools
    let history_tool_names := collect_history_tool_names history
    let existing_tool_names := tools.map (fun t => toLowerStr t.tool_specification.name)
    let tools := history_tool_names.foldl (fun ts name =>
      if existing_tool_names.contains (toLowerStr name) then ts
      else ts ++ [create_placeholder_tool name]) tools
    let validated_tool_results := validate_tool_pairing history tool_results
    let context : UserInputMessageContext := ⟨tools, validated_tool_results⟩
    let user_input : UserInputMessage :=
      ⟨last_user_content, model_id, last_images, aiEditorLit, context⟩
    let full_history :=
      (if system_content.isEmpty then []
       else [KMessage.user system_content model_id [],
             KMessage.assistant followInstructionsLit none]) ++ history
    Except.ok {
      conversation_state := {
        conversation_id := conversation_id
        agent_continuation_id := agent_continuation_id
        agent_task_type := vibeLit
        chat_trigger_type := manualLit
        current_message := ⟨user_input⟩
        history := full_history }
      original_model := req.model }

/-!
Stream transcoder (stream.rs).
-/

structure Usage where
  prompt_tokens : Int
  completion_tokens : Int
  total_tokens : Int
  deriving DecidableEq

structure DeltaFunction where
  name : Option Str
  arguments : Option Str
  deriving DecidableEq

structure DeltaToolCall where
  index : Int
  id : Option Str
  call_type : Option Str
  function : Option DeltaFunction
  deriving DecidableEq

structure Delta where
  role : Option Str
  content : Option Str
  tool_calls : Option (List DeltaToolCall)
  deriving DecidableEq

structure ChunkChoice where
  index : Int
  delta : Delta
  finish_reason : Option Str
  deriving DecidableEq

structure ChatCompletionChunk where
  id : Str
  object : Str
  created : Int
  model : Str
  choices : List ChunkChoice
  usage : Option Usage
  system_fingerprint : Option Str
  deriving DecidableEq

/-- Upstream ToolUse event (kiro event model, plain data). -/
structure ToolUseEvent where
  tool_use_id : Str
  name : Str
  input : Str
  stop : Bool
  deriving DecidableEq

/-- Upstream event variants consumed by the transcoders (kiro event model);
other covers all frame kinds both transcoders ignore. The f64 context-usage
percentage is modelled as a rational. -/
inductive Event where
  | assistantResponse (content : Str)
  | toolUse (tu : ToolUseEvent)
  | contextUsage (context_usage_percentage : ℚ)
  | error (error_code : Str) (error_message : Str)
  | exception (exception_type : Str) (message : Str)
  | other
  deriving DecidableEq

def chunkObjectLit : Str := "chat.completion.chunk".data

def lengthLit : Str := "length".data

def toolCallsLit : Str := "tool_calls".data

def stopLit : Str := "stop".data

def cleLit : Str := "ContentLengthExceededException".data

def thinkOpenLit : Str := "<thinking>".data

def thinkCloseLit : Str := "</thinking>".data

def twoNlLit : Str := "\n\n".data

/-- Rust's `value as i32` on an f64: truncation toward zero (saturation at the
i32 bounds is never reached by the percentage computation). -/
def i32TruncOfRat (q : ℚ) : Int := if 0 ≤ q then ⌊q⌋ else ⌈q⌉

def CONTEXT_WINDOW_SIZE : Int := 200000

/-- The while-loop of filter_thinking_tags, written with explicit fuel; one
unit of fuel per iteration. Each iteration removes at least the matched pair
of tags, so length + 1 units (as supplied by filter_thinking_tags) always
suffice, which the lemmas below prove. -/
def filterThinkingAux : Nat → Str → Str
  | 0, l => l
  | fuel + 1, l =>
    match findSub thinkOpenLit l with
    | none => l
    | some start =>
      match findSub thinkCloseLit (l.drop start) with
      | none => l.take start
      | some e =>
        let end_pos := start + e + thinkCloseLit.length
        let after := l.drop end_pos
        let trim_len : Nat :=
          if isPrefixL twoNlLit after then 2
          else if isPrefixL nlStr after then 1
          else 0
        filterThinkingAux fuel (l.take start ++ l.drop (end_pos + trim_len))

/-- Association-list model of the HashMap from tool_use_id to OpenAI tool
index; only get / contains_key / insert-when-absent are used. -/
def lookupToolIndex : List (Str × Int) → Str → Option Int
  | [], _ => none
  | (k, v) :: rest, tid => if k == tid then some v else lookupToolIndex rest tid

/-- StreamContext from stream.rs. -/
structure StreamContext where
  model : Str
  response_id : Str
  created : Int
  input_tokens : Int
  context_input_tokens : Option Int
  output_tokens : Int
  initial_sent : Bool
  has_tool_use : Bool
  tool_indices : List (Str × Int)
  next_tool_index : Int
  include_usage : Bool
  finish_reason : Option Str
  deriving DecidableEq

/-- StreamContext::new; the fresh uuid-based response id and the creation
timestamp are passed in explicitly. -/
def StreamContext.new (model response_id : Str) (created input_tokens : Int)
    (include_usage : Bool) : StreamContext :=
  ⟨model, response_id, created, input_tokens, none, 0, false, false, [], 0,
    include_usage, none⟩

namespace stream

/-- filter_thinking_tags from stream.rs. -/
def filter_thinking_tags (content : Str) : Str :=
  filterThinkingAux (content.length + 1) content

/-- estimate_tokens from stream.rs: Chinese code points (U+4E00..U+9FFF) at
two thirds of a token each, everything else at a quarter, floor 1. -/
def estimate_tokens (text : Str) : Int :=
  let chinese_count := (text.filter (fun c => '一' ≤ c && c ≤ '鿿')).length
  let other_count := text.length - chinese_count
  let chinese_tokens := (chinese_count * 2 + 2) / 3
  let other_tokens := (other_count + 3) / 4
  ((Nat.max (chinese_tokens + other_tokens) 1 : Nat) : Int)

/-- Chunk skeleton shared by every emission of stream.rs: id, object, created
and model always come from the context. -/
def mkChunk (ctx : StreamContext) (choices : List ChunkChoice) (usage : Option Usage) :
    ChatCompletionChunk :=
  { id := ctx.response_id, object := chunkObjectLit, created := ctx.created,
    model := ctx.model, choices := choices, usage := usage, system_fingerprint := none }

/-- StreamContext::generate_initial_chunk. -/
def generate_initial_chunk (ctx : StreamContext) : StreamContext × ChatCompletionChunk :=
  let d : Delta := { role := some assistantLit, content := none, tool_calls := none }
  ({ ctx with initial_sent := true },
   mkChunk ctx [{ index := 0, delta := d, finish_reason := none }] none)

/-- StreamContext::process_assistant_response. -/
def process_assistant_response (ctx : StreamContext) (content : Str) :
    StreamContext × List ChatCompletionChunk :=
  if content.isEmpty then (ctx, [])
  else
    let ctx := { ctx with output_tokens := ctx.output_tokens + estimate_tokens content }
    let filtered_content := filter_thinking_tags content
    if filtered_content.isEmpty then (ctx, [])
    else
      let d : Delta := { role := none, content := some filtered_content, tool_calls := none }
      (ctx, [mkChunk ctx [{ index := 0, delta := d, finish_reason := none }] none])

/-- StreamContext::process_tool_use, including the degenerate first-chunk test
of the source: the index map is already populated when the test runs, so its
contains_key arm is always false. -/
def process_tool_use (ctx : StreamContext) (tu : ToolUseEvent) :
    StreamContext × List ChatCompletionChunk :=
  let ctx := { ctx with has_tool_use := true }
  let p :=
    match lookupToolIndex ctx.tool_indices tu.tool_use_id with
    | some idx => (idx, ctx)
    | none =>
      (ctx.next_tool_index,
       { ctx with
          tool_indices := ctx.tool_indices ++ [(tu.tool_use_id, ctx.next_tool_index)],
          next_tool_index := ctx.next_tool_index + 1 })
  let tool_index := p.1
  let ctx := p.2
  let is_first_chunk :=
    !(lookupToolIndex ctx.tool_indices tu.tool_use_id).isSome ||
      (lookupToolIndex ctx.tool_indices tu.tool_use_id == some tool_index &&
        tu.input.isEmpty)
  let ctx :=
    if !tu.input.isEmpty then
      { ctx with output_tokens := ctx.output_tokens + (((tu.input.length + 3) / 4 : Nat) : Int) }
    else ctx
  let tool_call : DeltaToolCall :=
    if is_first_chunk || tu.input.isEmpty then
      let f : DeltaFunction :=
        { name := some tu.name,
          arguments := if tu.input.isEmpty then none else some tu.input }
      { index := tool_index, id := some tu.tool_use_id, call_type := some functionLit,
        function := some f }
    else
      let f : DeltaFunction := { name := none, arguments := some tu.input }
      { index := tool_index, id := none, call_type := none, function := some f }
  let d : Delta := { role := none, content := none, tool_calls := some [tool_call] }
  (ctx, [mkChunk ctx [{ index := 0, delta := d, finish_reason := none }] none])

/-- StreamContext::process_kiro_event. -/
def process_kiro_event (ctx : StreamContext) (event : Event) :
    StreamContext × List ChatCompletionChunk :=
  match event with
  | .assistantResponse content => process_assistant_response ctx content
  | .toolUse tu => process_tool_use ctx tu
  | .contextUsage p =>
    let actual_input_tokens := i32TruncOfRat (p * (CONTEXT_WINDOW_SIZE : ℚ) / 100)
    ({ ctx with context_input_tokens := some actual_input_tokens }, [])
  | .error _ _ => (ctx, [])
  | .exception exception_type _ =>
    (if exception_type == cleLit then { ctx with finish_reason := some lengthLit }
     else ctx, [])
  | .other => (ctx, [])

/-- StreamContext::generate_final_chunk. -/
def generate_final_chunk (ctx : StreamContext) : List ChatCompletionChunk :=
  let finish_reason :=
    match ctx.finish_reason with
    | some reason => reason
    | none => if ctx.has_tool_use then toolCallsLit else stopLit
  let d : Delta := { role := none, content := none, tool_calls := none }
  let first : ChatCompletionChunk :=
    mkChunk ctx [{ index := 0, delta := d, finish_reason := some finish_reason }] none
  if ctx.include_usage then
    let final_input_tokens := ctx.context_input_tokens.getD ctx.input_tokens
    [first,
     mkChunk ctx []
       (some ⟨final_input_tokens, ctx.output_tokens,
         final_input_tokens + ctx.output_tokens⟩)]
  else [first]

/-- StreamContext::get_usage. -/
def get_usage (ctx : StreamContext) : Usage :=
  let final_input_tokens := ctx.context_input_tokens.getD ctx.input_tokens
  ⟨final_input_tokens, ctx.output_tokens, final_input_tokens + ctx.output_tokens⟩

/-- Folding a whole decoded event sequence through the transcoder in upstream
order, as the SSE pump of handlers.rs does. -/
def processEvents (ctx : StreamContext) : List Event → StreamContext × List ChatCompletionChunk
  | [] => (ctx, [])
  | e :: rest =>
    let s := process_kiro_event ctx e
    let t := processEvents s.1 rest
    (t.1, s.2 ++ t.2)

end stream

/-!
Request log (request_log.rs).
-/

structure RequestLogEntry where
  id : Str
  timestamp : Str
  model : Str
  max_tokens : Int
  stream : Bool
  message_count : Nat
  credential_id : Nat
  success : Bool
  deriving DecidableEq

def MAX_LOG_ENTRIES : Nat := 50

/-- RequestLogger::log_request: bounded ring of at most 50 entries, evicting
the oldest on overflow. -/
def log_request (logs : List RequestLogEntry) (entry : RequestLogEntry) :
    List RequestLogEntry :=
  let logs := if MAX_LOG_ENTRIES ≤ logs.length then logs.drop 1 else logs
  logs ++ [entry]

/-- RequestLogger::get_logs: newest-first snapshot. -/
def get_logs (logs : List RequestLogEntry) : List RequestLogEntry := logs.reverse

/-!
HTTP handlers (handlers.rs): the non-streaming collector and the logging
portion of the chat_completions control flow.
-/

structure ResponseMessage where
  role : Str
  content : Option Str
  tool_calls : Option (List OToolCall)
  deriving DecidableEq

structure Choice where
  index : Int
  message : ResponseMessage
  finish_reason : Option Str
  deriving DecidableEq

structure ChatCompletionResponse where
  id : Str
  object : Str
  created : Int
  model : Str
  choices : List Choice
  usage : Option Usage
  system_fingerprint : Option Str
  deriving DecidableEq

def chatCompletionLit : Str := "chat.completion".data

def spaceLit : Str := " ".data

namespace handlers

/-- filter_thinking_tags from handlers.rs; the source carries a verbatim copy
of the stream.rs function, so the copy shares the fueled loop body. -/
def filter_thinking_tags (content : Str) : Str :=
  filterThinkingAux (content.length + 1) content

/-- estimate_output_tokens from handlers.rs. -/
def estimate_output_tokens (text : Str) : Int :=
  let chinese := (text.filter (fun c => '一' ≤ c && c ≤ '鿿')).length
  let other := text.length - chinese
  (((chinese * 2 + 2) / 3 + (other + 3) / 4).max 1 : Nat)

/-- estimate_input_tokens from handlers.rs: per-message estimate summed over
every message carrying content (text parts joined by a space), floored at 1
over the whole request. -/
def estimate_input_tokens (payload : ChatCompletionRequest) : Int :=
  let total := payload.messages.foldl (fun total msg =>
    match msg.content with
    | some content =>
      let text :=
        match content with
        | .text s => s
        | .parts parts =>
          List.intercalate spaceLit (parts.filterMap (fun (p : ContentPart) =>
            match p with
            | .text t => some t
            | _ => none))
      let chinese := (text.filter (fun c => '一' ≤ c && c ≤ '鿿')).length
      let other := text.length - chinese
      total + (((chinese * 2 + 2) / 3 + (other + 3) / 4 : Nat) : Int)
    | none => total) 0
  max total 1

/-- Mutable locals of the collector loop in handle_non_stream_request. The
tool_json_buffers HashMap is an association list from tool_use_id to the name
first seen and the accumulated argument fragments. -/
structure CollectState where
  text_content : Str
  tool_calls : List OToolCall
  finish_reason : Str
  context_input_tokens : Option Int
  output_tokens : Int
  tool_json_buffers : List (Str × Str × Str)
  deriving DecidableEq

def initCollectState : CollectState := ⟨[], [], stopLit, none, 0, []⟩

/-- The entry(id).or_insert((name, empty)) followed by push_str(input) of the
collector: returns the updated entry value and the updated map. -/
def entryPush : List (Str × Str × Str) → Str → Str → Str → ((Str × Str) × List (Str × Str × Str))
  | [], tid, name, input => ((name, input), [(tid, name, input)])
  | (k, n, a) :: rest, tid, name, input =>
    if k == tid then ((n, a ++ input), (k, n, a ++ input) :: rest)
    else
      let r := entryPush rest tid name input
      (r.1, (k, n, a) :: r.2)

/-- One iteration of the collector loop of handle_non_stream_request. -/
def collectStep (st : CollectState) (event : Event) : CollectState :=
  match event with
  | .assistantResponse content =>
    let filtered := filter_thinking_tags content
    { st with text_content := st.text_content ++ filtered,
              output_tokens := st.output_tokens + estimate_output_tokens content }
  | .toolUse tu =>
    let st := { st with finish_reason := toolCallsLit }
    let r := entryPush st.tool_json_buffers tu.tool_use_id tu.name tu.input
    let st := { st with tool_json_buffers := r.2 }
    let st :=
      if tu.stop then
        { st with tool_calls := st.tool_calls ++ [⟨tu.tool_use_id, functionLit, ⟨r.1.1, r.1.2⟩⟩] }
      else st
    { st with output_tokens := st.output_tokens + (((tu.input.length + 3) / 4 : Nat) : Int) }
  | .contextUsage p =>
    let actual_input_tokens := i32TruncOfRat (p * 200000 / 100)
    { st with context_input_tokens := some actual_input_tokens }
  | .exception exception_type _ =>
    if exception_type == cleLit then { st with finish_reason := lengthLit } else st
  | _ => st

/-- The collector loop over the whole decoded event sequence. -/
def collectEvents (events : List Event) : CollectState :=
  events.foldl collectStep initCollectState

/-- Response assembly of handle_non_stream_request (the fresh response id and
timestamp are passed in explicitly). -/
def build_non_stream_response (response_id : Str) (created : Int) (model : Str)
    (input_tokens : Int) (events : List Event) : ChatCompletionResponse :=
  let st := collectEvents events
  let final_input_tokens := st.context_input_tokens.getD input_tokens
  let message : ResponseMessage :=
    { role := assistantLit,
      content := if st.text_content.isEmpty then none else some st.text_content,
      tool_calls := if st.tool_calls.isEmpty then none else some st.tool_calls }
  { id := response_id, object := chatCompletionLit, created := created, model := model,
    choices := [{ index := 0, message := message, finish_reason := some st.finish_reason }],
    usage := some ⟨final_input_tokens, st.output_tokens,
      final_input_tokens + st.output_tokens⟩,
    system_fingerprint := none }

/-- Per-request inputs of one chat_completions invocation that the source
draws from the environment: provider presence, credential acquisition
outcome, logger presence, fresh identifiers and timestamp. -/
structure Invocation where
  hasProvider : Bool
  credOk : Bool
  loggerPresent : Bool
  payload : ChatCompletionRequest
  entry_id : Str
  timestamp : Str
  credential_id : Nat
  conversation_id : Str
  agent_continuation_id : Str

/-- Where the handler control flow ends up before touching the upstream API
(serialization and the upstream call are external collaborators). -/
inductive HandlerOutcome where
  | providerUnavailable
  | noCredentials
  | badRequest (e : ConversionError)
  | proceeds (result : ConversionResult)

/-- The log entry built at handlers.rs lines 116-125; success is the literal
true. -/
def handlerEntry (inv : Invocation) : RequestLogEntry :=
  { id := inv.entry_id, timestamp := inv.timestamp, model := inv.payload.model,
    max_tokens := inv.payload.effective_max_tokens, stream := inv.payload.is_stream,
    message_count := inv.payload.messages.length, credential_id := inv.credential_id,
    success := true }

/-- chat_completions from handlers.rs up to the upstream call: provider and
credential checks, then the request-log append, then request conversion. -/
def chat_completions (inv : Invocation) (logs : List RequestLogEntry) :
    List RequestLogEntry × HandlerOutcome :=
  if !inv.hasProvider then (logs, .providerUnavailable)
  else if !inv.credOk then (logs, .noCredentials)
  else
    let logs := if inv.loggerPresent then log_request logs (handlerEntry inv) else logs
    match convert_request inv.conversation_id inv.agent_continuation_id inv.payload with
    | .error e => (logs, .badRequest e)
    | .ok result => (logs, .proceeds result)

/-- The request log evolving across a sequence of handler invocations that
share one logger. -/
def runInvocations (logs : List RequestLogEntry) : List Invocation → List RequestLogEntry
  | [] => logs
  | inv :: rest => runInvocations (chat_completions inv logs).1 rest

end handlers

/-!
Specification-side predicates used to state the claims.
-/

def isUserMsg : KMessage → Bool
  | .user _ _ _ => true
  | _ => false

def isAssistantMsg : KMessage → Bool
  | .assistant _ _ => true
  | _ => false

/-- Strict role alternation of a history, starting from the expected role. -/
def alternatesFrom (expectUser : Bool) : List KMessage → Bool
  | [] => true
  | m :: rest =>
    (if expectUser then isUserMsg m else isAssistantMsg m) && alternatesFrom (!expectUser) rest

/-- The history alternates user, assistant, user, assistant, starting with a
user entry. -/
def alternatesFromUser (h : List KMessage) : Bool := alternatesFrom true h

/-- Every user entry of the history is immediately followed by an assistant
entry. -/
def usersClosed : List KMessage → Bool
  | [] => true
  | .user _ _ _ :: rest =>
    match rest with
    | .assistant _ _ :: _ => usersClosed rest
    | _ => false
  | .assistant _ _ :: rest => usersClosed rest

/-- The last entry of the history, if any, is an assistant entry. -/
def lastIsAssistant : List KMessage → Bool
  | [] => true
  | [m] => isAssistantMsg m
  | _ :: rest => lastIsAssistant rest

/-- Some assistant entry of the history carries a tool use with this id. -/
def historyHasToolUseId (history : List KMessage) (tid : Str) : Prop :=
  ∃ content tus tu, KMessage.assistant content (some tus) ∈ history ∧ tu ∈ tus ∧
    tu.tool_use_id = tid

/-- The event is the ContentLengthExceededException exception. -/
def isCLEEvent : Event → Bool
  | .exception t _ => t == cleLit
  | _ => false

def isToolUseEvent : Event → Bool
  | .toolUse _ => true
  | _ => false

/-- The percentage of the last ContextUsage event of the sequence, if any. -/
def lastContextUsage : List Event → Option ℚ
  | [] => none
  | e :: rest =>
    match lastContextUsage rest with
    | some p => some p
    | none =>
      match e with
      | .contextUsage p => some p
      | _ => none

/-- Finish reason dictated by the last finish-relevant event, the rule the
non-streaming collector actually implements. -/
def lastWriterFinish (evs : List Event) : Str :=
  match (evs.filter (fun e => isCLEEvent e || isToolUseEvent e)).getLast? with
  | none => stopLit
  | some e => if isCLEEvent e then lengthLit else toolCallsLit

/-- Order-independent finish-reason rule of the claim (and of the streaming
transcoder). -/
def observedFinish (evs : List Event) : Str :=
  if evs.any isCLEEvent then lengthLit
  else if evs.any isToolUseEvent then toolCallsLit
  else stopLit

/-!
Concrete inputs used by witnesses and counterexamples.
-/

def c1Ctx : StreamContext := StreamContext.new ("model".data) ("rid".data) 0 0 false

def c1Event : ToolUseEvent := ⟨"a".data, "sum".data, "1".data, false⟩

def c2Cid : Str := "conv-id".data

def c2Aid : Str := "agent-id".data

def mkPlainMessage (role text : Str) : ChatMessage :=
  { role := role, content := some (.text text), tool_calls := none,
    tool_call_id := none, name := none }

def c2Req : ChatCompletionRequest :=
  { model := "m".data,
    messages := [mkPlainMessage assistantLit ("a".data), mkPlainMessage userLit ("u".data)],
    max_tokens := none, max_completion_tokens := none, stream := none, tools := none,
    stream_options := none }

def c2WitnessReq : ChatCompletionRequest :=
  { model := "m".data,
    messages := [mkPlainMessage systemLit ("Be brief.".data),
      mkPlainMessage userLit ("x".data), mkPlainMessage assistantLit ("y".data),
      mkPlainMessage userLit ("Hi".data)],
    max_tokens := none, max_completion_tokens := none, stream := none, tools := none,
    stream_options := none }

def c2WitnessResult : ConversionResult :=
  (convert_request c2Cid c2Aid c2WitnessReq).toOption.getD
    ⟨⟨[], [], [], [], ⟨⟨[], [], [], [], ⟨[], []⟩⟩⟩, []⟩, []⟩

def c3Evs : List Event :=
  [.exception cleLit [], .toolUse ⟨"a".data, "s".data, "x".data, true⟩]

def c4Evs : List Event := [.contextUsage (1 / 32)]

def c4WitnessEvs : List Event := [.contextUsage 10]

def c5History : List KMessage :=
  [KMessage.assistant ("hi".data) (some [⟨"t1".data, "do_it".data, Json.fromRaw []⟩])]

def c5Result1 : KToolResult := KToolResult.success ("t2".data) ("a".data)

def c5Result2 : KToolResult := KToolResult.success ("t1".data) ("b".data)

def c5Result3 : KToolResult := KToolResult.success ("t1".data) ("c".data)

def c5Results : List KToolResult := [c5Result1, c5Result2, c5Result3]

def c8Fn : FunctionDefinition := ⟨"f".data, none, none⟩

def c8Tool : OTool := ⟨functionLit, c8Fn⟩

def c8Tools : Option (List OTool) := some [c8Tool]

def c9Payload : ChatCompletionRequest :=
  { model := "m".data, messages := [], max_tokens := none, max_completion_tokens := none,
    stream := none, tools := none, stream_options := none }

def c9Inv : handlers.Invocation :=
  { hasProvider := true, credOk := true, loggerPresent := true, payload := c9Payload,
    entry_id := "e1".data, timestamp := "ts".data, credential_id := 1,
    conversation_id := "c".data, agent_continuation_id := "a".data }

def c10Ctx : StreamContext := StreamContext.new ("m".data) ("r".data) 0 7 true

def c10Content : Str := "<thinking>x</thinking>".data

/-!
Theorems. General lemmas about the string primitives first.
-/

theorem isPrefixL_length_le {p l : Str} (h : isPrefixL p l = true) :
    p.length ≤ l.length := by
  induction p generalizing l with
  | nil => simp
  | cons a as ih =>
    cases l with
    | nil => simp [isPrefixL] at h
    | cons b bs =>
      simp only [isPrefixL, Bool.and_eq_true] at h
      simpa [Nat.succ_le_succ_iff] using ih h.2

theorem isPrefixL_trans {a b c : Str} (h1 : isPrefixL a b = true)
    (h2 : isPrefixL b c = true) : isPrefixL a c = true := by
  induction a generalizing b c with
  | nil => simp [isPrefixL]
  | cons x xs ih =>
    cases b with
    | nil => simp [isPrefixL] at h1
    | cons y ys =>
      cases c with
      | nil => simp [isPrefixL] at h2
      | cons z zs =>
        simp only [isPrefixL, Bool.and_eq_true, beq_iff_eq] at h1 h2 ⊢
        exact ⟨h1.1.trans h2.1, ih h1.2 h2.2⟩

theorem isPrefixL_take (n : Nat) (l : Str) : isPrefixL (l.take n) l = true := by
  induction l generalizing n with
  | nil => simp [isPrefixL]
  | cons a as ih =>
    cases n with
    | zero => simp [isPrefixL]
    | succ m => simpa [isPrefixL] using ih m

/-- C7: for every model name, the mapped Kiro id is claude-sonnet-4.5 when the
lowercased name contains sonnet, else claude-opus-4.5 when it contains opus,
else claude-haiku-4.5; sonnet wins when both substrings appear, and the
mapping returns some value for every input, so the UnsupportedModel failure is
unreachable. -/
theorem map_model_spec (m : Str) :
    (∃ v, map_model m = some v) ∧
    (containsStr (toLowerStr m) sonnetLit = true → map_model m = some sonnetModelId) ∧
    (containsStr (toLowerStr m) sonnetLit = false →
      containsStr (toLowerStr m) opusLit = true → map_model m = some opusModelId) ∧
    (containsStr (toLowerStr m) sonnetLit = false →
      containsStr (toLowerStr m) opusLit = false → map_model m = some haikuModelId) ∧
    (containsStr (toLowerStr m) sonnetLit = true →
      containsStr (toLowerStr m) opusLit = true → map_model m = some sonnetModelId) := by
  unfold map_model
  refine ⟨?_, ?_, ?_, ?_, ?_⟩ <;> simp only []
  · split
    · exact ⟨_, rfl⟩
    · split
      · exact ⟨_, rfl⟩
      · exact ⟨_, rfl⟩
  · intro h; simp [h]
  · intro h1 h2; simp [h1, h2]
  · intro h1 h2; simp [h1, h2]
  · intro h1 _; simp [h1]

theorem map_model_spec_witness : map_model modelBothLit = some sonnetModelId :=
  (map_model_spec modelBothLit).2.2.2.2 (by decide) (by decide)

/-- C1 (code bug): on the very first ToolUse event for a fresh tool_use_id,
with a non-empty input fragment, the emitted delta carries only the index and
function.arguments, with no id, no type and no function.name. The claim (and
the source's own is_first_chunk naming and first-chunk comment) requires the
full id, type and name on first sight; the test at stream.rs lines 178-180
runs after the index map has already been populated, so its contains_key arm
is dead and the full delta is emitted exactly when the input fragment is
empty. -/
theorem process_tool_use_first_sight_drops_identity :
    (stream.process_tool_use c1Ctx c1Event).2.map
        (fun ch => ch.choices.map (fun c => c.delta.tool_calls)) =
      [[some [{ index := 0, id := none, call_type := none,
                function := some { name := none, arguments := some ("1".data) } }]]] := by
  decide

/-- C10: the streaming output-token counter is advanced by the token estimate
of the raw AssistantResponse content before thinking-tag filtering; in
particular the counter strictly increases on every non-empty content, even
when the filtered remainder is empty and no chunk is emitted. -/
theorem process_assistant_response_counts_raw_tokens (ctx : StreamContext) (content : Str)
    (h : content ≠ []) :
    ((stream.process_assistant_response ctx content).1.output_tokens
        = ctx.output_tokens + stream.estimate_tokens content) ∧
    ctx.output_tokens < (stream.process_assistant_response ctx content).1.output_tokens ∧
    (stream.filter_thinking_tags content = [] →
      (stream.process_assistant_response ctx content).2 = []) := by
  have hne : content.isEmpty = false := by
    cases content with
    | nil => exact absurd rfl h
    | cons a as => rfl
  have hest : 1 ≤ stream.estimate_tokens content := by
    simp only [stream.estimate_tokens]
    exact_mod_cast Nat.le_max_right _ 1
  have hlt : ctx.output_tokens < ctx.output_tokens + stream.estimate_tokens content := by
    omega
  unfold stream.process_assistant_response
  rw [hne]
  simp only [Bool.false_eq_true, if_false]
  by_cases hf : (stream.filter_thinking_tags content).isEmpty
  · rw [if_pos hf]
    exact ⟨rfl, hlt, fun _ => rfl⟩
  · rw [if_neg hf]
    refine ⟨rfl, hlt, fun hc => ?_⟩
    rw [hc] at hf
    simp at hf

theorem process_assistant_response_counts_raw_tokens_witness :
    ((stream.process_assistant_response c10Ctx c10Content).1.output_tokens
        = c10Ctx.output_tokens + stream.estimate_tokens c10Content) ∧
    (stream.process_assistant_response c10Ctx c10Content).2 = [] := by
  have h := process_assistant_response_counts_raw_tokens c10Ctx c10Content (by decide)
  exact ⟨h.1, h.2.2 (by decide)⟩

theorem listContains_iff {α} [BEq α] [LawfulBEq α] {l : List α} {a : α} :
    l.contains a = true ↔ a ∈ l := List.elem_iff

theorem exists_of_mem_toolUseIds {history : List KMessage} {tid : Str}
    (h : tid ∈ toolUseIdsOfHistory history) : historyHasToolUseId history tid := by
  induction history with
  | nil => simp [toolUseIdsOfHistory] at h
  | cons m rest ih =>
    cases m with
    | user c mid imgs =>
      rw [show toolUseIdsOfHistory (KMessage.user c mid imgs :: rest)
          = toolUseIdsOfHistory rest from rfl] at h
      obtain ⟨c', tus, tu, hm, htu, htid⟩ := ih h
      exact ⟨c', tus, tu, List.mem_cons_of_mem _ hm, htu, htid⟩
    | assistant c otus =>
      cases otus with
      | none =>
        rw [show toolUseIdsOfHistory (KMessage.assistant c none :: rest)
            = toolUseIdsOfHistory rest from rfl] at h
        obtain ⟨c', tus, tu, hm, htu, htid⟩ := ih h
        exact ⟨c', tus, tu, List.mem_cons_of_mem _ hm, htu, htid⟩
      | some tus =>
        rw [show toolUseIdsOfHistory (KMessage.assistant c (some tus) :: rest)
            = tus.map (fun tu => tu.tool_use_id) ++ toolUseIdsOfHistory rest from rfl] at h
        rcases List.mem_append.mp h with h | h
        · obtain ⟨tu, htu, htid⟩ := List.mem_map.mp h
          exact ⟨c, tus, tu, List.mem_cons_self _ _, htu, htid⟩
        · obtain ⟨c', tus', tu, hm, htu, htid⟩ := ih h
          exact ⟨c', tus', tu, List.mem_cons_of_mem _ hm, htu, htid⟩

theorem pairLoop_cons (valid : List Str) (q : KToolResult) (rest : List KToolResult) :
    pairLoop valid (q :: rest) =
      if valid.contains q.tool_use_id = true then
        q :: pairLoop (valid.filter (fun v => !(v == q.tool_use_id))) rest
      else pairLoop valid rest := rfl

theorem pairLoop_mem {valid : List Str} {results : List KToolResult} :
    ∀ r ∈ pairLoop valid results, r.tool_use_id ∈ valid ∧ r ∈ results := by
  induction results generalizing valid with
  | nil => intro r hr; simp [pairLoop] at hr
  | cons q rest ih =>
    intro r hr
    rw [pairLoop_cons] at hr
    by_cases hc : valid.contains q.tool_use_id = true
    · rw [if_pos hc] at hr
      rcases List.mem_cons.mp hr with h | h
      · subst h
        exact ⟨listContains_iff.mp hc, List.mem_cons_self _ _⟩
      · obtain ⟨h1, h2⟩ := ih r h
        exact ⟨(List.mem_filter.mp h1).1, List.mem_cons_of_mem _ h2⟩
    · rw [if_neg hc] at hr
      obtain ⟨h1, h2⟩ := ih r hr
      exact ⟨h1, List.mem_cons_of_mem _ h2⟩

theorem pairLoop_pairwise (valid : List Str) (results : List KToolResult) :
    (pairLoop valid results).Pairwise (fun r1 r2 => r1.tool_use_id ≠ r2.tool_use_id) := by
  induction results generalizing valid with
  | nil => simp [pairLoop]
  | cons q rest ih =>
    rw [pairLoop_cons]
    by_cases hc : valid.contains q.tool_use_id = true
    · rw [if_pos hc]
      refine List.Pairwise.cons ?_ (ih _)
      intro r hr
      have h1 := (pairLoop_mem r hr).1
      have h2 := (List.mem_filter.mp h1).2
      simp only [bne_iff_ne, ne_eq, Bool.not_eq_true'] at h2
      intro hq
      rw [hq] at h2
      simp at h2
    · rw [if_neg hc]
      exact ih _

theorem pairLoop_first_match {valid : List Str} :
    ∀ (pre : List KToolResult) (r : KToolResult) (post : List KToolResult),
      r.tool_use_id ∈ valid →
      (∀ r' ∈ pre, r'.tool_use_id ≠ r.tool_use_id) →
      r ∈ pairLoop valid (pre ++ r :: post) := by
  intro pre
  induction pre generalizing valid with
  | nil =>
    intro r post hv _
    rw [List.nil_append, pairLoop_cons, if_pos (listContains_iff.mpr hv)]
    exact List.mem_cons_self _ _
  | cons q pre' ih =>
    intro r post hv hpre
    have hq : q.tool_use_id ≠ r.tool_use_id := hpre q (List.mem_cons_self _ _)
    have hpre' : ∀ r' ∈ pre', r'.tool_use_id ≠ r.tool_use_id :=
      fun r' h => hpre r' (List.mem_cons_of_mem _ h)
    show r ∈ pairLoop valid (q :: (pre' ++ r :: post))
    rw [pairLoop_cons]
    by_cases hc : valid.contains q.tool_use_id = true
    · rw [if_pos hc]
      refine List.mem_cons_of_mem _ (ih r post ?_ hpre')
      refine List.mem_filter.mpr ⟨hv, ?_⟩
      simp only [bne_iff_ne, ne_eq, Bool.not_eq_true']
      simp only [beq_eq_false_iff_ne, ne_eq]
      exact fun h => hq h.symm
    · rw [if_neg hc]
      exact ih r post hv hpre'

/-- C5: every tool result kept by validate_tool_pairing matches some tool use
id of an assistant history entry; a result whose id matches nothing is simply
dropped (the function is total and its output only ever contains input
elements); and among several results with the same id only the first is kept:
the kept ids are pairwise distinct and the first result carrying a valid id
is always kept. -/
theorem validate_tool_pairing_spec (history : List KMessage) (results : List KToolResult) :
    (∀ r ∈ validate_tool_pairing history results,
      historyHasToolUseId history r.tool_use_id ∧ r ∈ results) ∧
    (validate_tool_pairing history results).Pairwise
      (fun r1 r2 => r1.tool_use_id ≠ r2.tool_use_id) ∧
    (∀ pre r post, results = pre ++ r :: post →
      r.tool_use_id ∈ toolUseIdsOfHistory history →
      (∀ r' ∈ pre, r'.tool_use_id ≠ r.tool_use_id) →
      r ∈ validate_tool_pairing history results) := by
  refine ⟨?_, pairLoop_pairwise _ _, ?_⟩
  · intro r hr
    obtain ⟨h1, h2⟩ := pairLoop_mem r hr
    exact ⟨exists_of_mem_toolUseIds h1, h2⟩
  · intro pre r post heq hv hpre
    rw [heq]
    exact pairLoop_first_match pre r post hv hpre

theorem validate_tool_pairing_spec_witness :
    historyHasToolUseId c5History c5Result2.tool_use_id ∧ c5Result2 ∈ c5Results :=
  (validate_tool_pairing_spec c5History c5Results).1 c5Result2 (by decide)


/-- C8: every tool specification emitted by convert_tools has a description of
at most 10000 Unicode scalar values (one list element per code point in this
model, so the count is by code points, not bytes), and a source tool of type
function with omitted parameters is carried through with the default input
schema, the JSON object with type object, empty properties and empty required
list. -/
theorem convert_tools_spec (tools : Option (List OTool)) :
    (∀ t ∈ convert_tools tools, t.tool_specification.description.length ≤ 10000) ∧
    (∀ src ∈ tools.getD [], src.tool_type = functionLit → src.function.parameters = none →
      (⟨⟨src.function.name,
        (if 10000 < (src.function.description.getD []).length
         then (src.function.description.getD []).take 10000
         else src.function.description.getD []),
        InputSchema.from_json defaultSchemaJson⟩⟩ : KTool) ∈ convert_tools tools) := by
  constructor
  · intro t ht
    cases tools with
    | none => simp [convert_tools] at ht
    | some ts =>
      simp only [convert_tools, List.mem_map] at ht
      obtain ⟨src, hsrc, rfl⟩ := ht
      dsimp only
      split
      · rw [List.length_take]
        exact Nat.min_le_left _ _
      · next hlen => omega
  · intro src hsrc hty hp
    cases tools with
    | none => simp at hsrc
    | some ts =>
      simp only [Option.getD] at hsrc
      simp only [convert_tools, List.mem_map]
      refine ⟨src, List.mem_filter.mpr ⟨hsrc, by simp [hty]⟩, ?_⟩
      rw [hp]

theorem convert_tools_spec_witness :
    (⟨⟨"f".data, [], InputSchema.from_json defaultSchemaJson⟩⟩ : KTool)
      ∈ convert_tools c8Tools := by
  have h := (convert_tools_spec c8Tools).2 c8Tool (List.Mem.head _) rfl rfl
  exact h

theorem log_request_mem {logs : List RequestLogEntry} {entry e : RequestLogEntry}
    (h : e ∈ log_request logs entry) : e ∈ logs ∨ e = entry := by
  unfold log_request at h
  rcases List.mem_append.mp h with h | h
  · split at h
    · exact Or.inl (List.mem_of_mem_drop h)
    · exact Or.inl h
  · exact Or.inr (List.mem_singleton.mp h)

theorem chat_completions_log_mem {inv : handlers.Invocation}
    {logs : List RequestLogEntry} {e : RequestLogEntry}
    (h : e ∈ (handlers.chat_completions inv logs).1) :
    e ∈ logs ∨ e = handlers.handlerEntry inv := by
  unfold handlers.chat_completions at h
  by_cases hp : inv.hasProvider = true
  · by_cases hcred : inv.credOk = true
    · rw [hp, hcred] at h
      simp only [Bool.not_true, Bool.false_eq_true, if_false] at h
      by_cases hl : inv.loggerPresent = true
      · rw [if_pos hl] at h
        rcases hconv : convert_request inv.conversation_id inv.agent_continuation_id inv.payload
          with e' | result
        all_goals rw [hconv] at h
        all_goals exact log_request_mem h
      · rw [if_neg hl] at h
        rcases hconv : convert_request inv.conversation_id inv.agent_continuation_id inv.payload
          with e' | result
        all_goals rw [hconv] at h
        all_goals exact Or.inl h
    · rw [hp] at h
      rw [Bool.not_eq_true] at hcred
      rw [hcred] at h
      simp only [Bool.not_true, Bool.false_eq_true, if_false, Bool.not_false, if_true] at h
      exact Or.inl h
  · rw [Bool.not_eq_true] at hp
    rw [hp] at h
    simp only [Bool.not_false, if_true] at h
    exact Or.inl h

theorem runInvocations_success {invs : List handlers.Invocation}
    {logs : List RequestLogEntry}
    (hlogs : ∀ e ∈ logs, e.success = true) :
    ∀ e ∈ handlers.runInvocations logs invs, e.success = true := by
  induction invs generalizing logs with
  | nil => simpa [handlers.runInvocations] using hlogs
  | cons inv rest ih =>
    refine ih (fun e he => ?_)
    rcases chat_completions_log_mem he with h | h
    · exact hlogs e h
    · rw [h]; rfl

/-- C9: every entry the chat_completions handler ever stores in the request
log has success set to true; moreover once provider and credentials are
available the entry is appended whether or not request conversion then
succeeds (the append happens before conversion is attempted), so a request
failing transcoding with a 400 is still recorded with success true. -/
theorem request_log_entries_successful :
    (∀ (invs : List handlers.Invocation) (e : RequestLogEntry),
      e ∈ handlers.runInvocations [] invs → e.success = true) ∧
    (∀ (inv : handlers.Invocation) (logs : List RequestLogEntry),
      inv.hasProvider = true → inv.credOk = true → inv.loggerPresent = true →
      (handlers.chat_completions inv logs).1
          = log_request logs (handlers.handlerEntry inv) ∧
      (handlers.handlerEntry inv).success = true) := by
  constructor
  · intro invs e he
    exact runInvocations_success (by intro e' h; simp at h) e he
  · intro inv logs hp hcred hl
    refine ⟨?_, rfl⟩
    unfold handlers.chat_completions
    rw [hp, hcred]
    simp only [Bool.not_true, Bool.false_eq_true, if_false]
    rw [if_pos hl]
    rcases hconv : convert_request inv.conversation_id inv.agent_continuation_id inv.payload
      with e' | result
    · rfl
    · rfl

theorem request_log_entries_successful_witness :
    (handlers.handlerEntry c9Inv).success = true :=
  request_log_entries_successful.1 [c9Inv] (handlers.handlerEntry c9Inv) (by decide)

theorem process_kiro_event_ctx_fields (ctx : StreamContext) (e : Event) :
    ((stream.process_kiro_event ctx e).1.finish_reason =
      if isCLEEvent e then some lengthLit else ctx.finish_reason) ∧
    ((stream.process_kiro_event ctx e).1.has_tool_use =
      (ctx.has_tool_use || isToolUseEvent e)) ∧
    ((stream.process_kiro_event ctx e).1.context_input_tokens =
      match e with
      | .contextUsage p => some (i32TruncOfRat (p * (CONTEXT_WINDOW_SIZE : ℚ) / 100))
      | _ => ctx.context_input_tokens) := by
  cases e with
  | assistantResponse content =>
    refine ⟨?_, ?_, ?_⟩ <;>
      (unfold stream.process_kiro_event stream.process_assistant_response
       dsimp only [isCLEEvent, isToolUseEvent]
       split
       · simp
       · split <;> simp)
  | toolUse tu =>
    refine ⟨?_, ?_, ?_⟩ <;>
      (unfold stream.process_kiro_event stream.process_tool_use
       dsimp only [isCLEEvent, isToolUseEvent]
       split <;> split <;> simp)
  | contextUsage p => exact ⟨rfl, by simp [stream.process_kiro_event, isToolUseEvent], rfl⟩
  | error a b => exact ⟨rfl, by simp [stream.process_kiro_event, isToolUseEvent], rfl⟩
  | exception t msg =>
    refine ⟨?_, ?_, ?_⟩ <;>
      (unfold stream.process_kiro_event
       dsimp only [isCLEEvent, isToolUseEvent]
       split <;> simp_all)
  | other => exact ⟨rfl, by simp [stream.process_kiro_event, isToolUseEvent], rfl⟩

theorem processEvents_finish (ctx : StreamContext) (evs : List Event) :
    (stream.processEvents ctx evs).1.finish_reason =
      (if evs.any isCLEEvent then some lengthLit else ctx.finish_reason) := by
  induction evs generalizing ctx with
  | nil => simp [stream.processEvents]
  | cons e rest ih =>
    show (stream.processEvents (stream.process_kiro_event ctx e).1 rest).1.finish_reason = _
    rw [ih, (process_kiro_event_ctx_fields ctx e).1]
    by_cases h : isCLEEvent e = true
    · simp [h, List.any_cons]
    · rw [Bool.not_eq_true] at h
      simp [h, List.any_cons]

theorem processEvents_has_tool_use (ctx : StreamContext) (evs : List Event) :
    (stream.processEvents ctx evs).1.has_tool_use =
      (ctx.has_tool_use || evs.any isToolUseEvent) := by
  induction evs generalizing ctx with
  | nil => simp [stream.processEvents]
  | cons e rest ih =>
    show (stream.processEvents (stream.process_kiro_event ctx e).1 rest).1.has_tool_use = _
    rw [ih, (process_kiro_event_ctx_fields ctx e).2.1]
    simp [List.any_cons, Bool.or_assoc]

theorem processEvents_context_tokens (ctx : StreamContext) (evs : List Event) :
    (stream.processEvents ctx evs).1.context_input_tokens =
      (match lastContextUsage evs with
       | none => ctx.context_input_tokens
       | some p => some (i32TruncOfRat (p * (CONTEXT_WINDOW_SIZE : ℚ) / 100))) := by
  induction evs generalizing ctx with
  | nil => simp [stream.processEvents, lastContextUsage]
  | cons e rest ih =>
    show (stream.processEvents (stream.process_kiro_event ctx e).1 rest).1.context_input_tokens = _
    rw [ih, (process_kiro_event_ctx_fields ctx e).2.2]
    cases hr : lastContextUsage rest with
    | some p => simp [lastContextUsage, hr]
    | none =>
      cases e <;> simp [lastContextUsage, hr]

theorem collectStep_finish (st : handlers.CollectState) (e : Event) :
    (handlers.collectStep st e).finish_reason =
      (if isCLEEvent e then lengthLit
       else if isToolUseEvent e then toolCallsLit else st.finish_reason) := by
  cases e with
  | toolUse tu =>
    unfold handlers.collectStep
    dsimp only [isCLEEvent, isToolUseEvent]
    split <;> rfl
  | exception t msg =>
    unfold handlers.collectStep
    dsimp only [isCLEEvent, isToolUseEvent]
    split <;> simp_all
  | assistantResponse content => rfl
  | contextUsage p => rfl
  | error a b => rfl
  | other => rfl

theorem collectStep_context (st : handlers.CollectState) (e : Event) :
    (handlers.collectStep st e).context_input_tokens =
      (match e with
       | .contextUsage p => some (i32TruncOfRat (p * 200000 / 100))
       | _ => st.context_input_tokens) := by
  cases e with
  | toolUse tu =>
    dsimp only [handlers.collectStep]
    split <;> rfl
  | exception t msg =>
    dsimp only [handlers.collectStep]
    split <;> rfl
  | assistantResponse content => rfl
  | contextUsage p => rfl
  | error a b => rfl
  | other => rfl

theorem collectFold_finish (st : handlers.CollectState) (evs : List Event) :
    (evs.foldl handlers.collectStep st).finish_reason =
      evs.foldl (fun acc e =>
        if isCLEEvent e then lengthLit
        else if isToolUseEvent e then toolCallsLit else acc) st.finish_reason := by
  induction evs generalizing st with
  | nil => rfl
  | cons e rest ih => rw [List.foldl_cons, List.foldl_cons, ih, collectStep_finish]

theorem collectFold_context (st : handlers.CollectState) (evs : List Event) :
    (evs.foldl handlers.collectStep st).context_input_tokens =
      (match lastContextUsage evs with
       | none => st.context_input_tokens
       | some p => some (i32TruncOfRat (p * 200000 / 100))) := by
  induction evs generalizing st with
  | nil => rfl
  | cons e rest ih =>
    rw [List.foldl_cons, ih, collectStep_context]
    cases hr : lastContextUsage rest with
    | some p => simp [lastContextUsage, hr]
    | none => cases e <;> simp [lastContextUsage, hr]

theorem foldFinish_eq (r : Str) (evs : List Event) :
    evs.foldl (fun acc e =>
        if isCLEEvent e then lengthLit
        else if isToolUseEvent e then toolCallsLit else acc) r =
      (match (evs.filter (fun e => isCLEEvent e || isToolUseEvent e)).getLast? with
       | none => r
       | some e => if isCLEEvent e then lengthLit else toolCallsLit) := by
  induction evs generalizing r with
  | nil => rfl
  | cons e rest ih =>
    rw [List.foldl_cons, ih]
    by_cases hrel : (isCLEEvent e || isToolUseEvent e) = true
    · have hf : (e :: rest).filter (fun e => isCLEEvent e || isToolUseEvent e)
          = e :: rest.filter (fun e => isCLEEvent e || isToolUseEvent e) := by
        simp [List.filter_cons, hrel]
      rw [hf]
      have hstep : (if isCLEEvent e then lengthLit
          else if isToolUseEvent e then toolCallsLit else r)
          = (if isCLEEvent e then lengthLit else toolCallsLit) := by
        by_cases hcle : isCLEEvent e = true
        · simp [hcle]
        · rw [Bool.not_eq_true] at hcle
          simp only [hcle, Bool.false_or] at hrel
          simp [hcle, hrel]
      cases hfr : rest.filter (fun e => isCLEEvent e || isToolUseEvent e) with
      | nil => simp [hstep]
      | cons x xs =>
        rw [List.getLast?_cons_cons]
        cases hgl : (x :: xs).getLast? with
        | none => simp at hgl
        | some y => rfl
    · rw [Bool.or_eq_true] at hrel
      push_neg at hrel
      obtain ⟨hcle, htu⟩ := hrel
      have hcle2 : isCLEEvent e = false := Bool.eq_false_iff.mpr hcle
      have htu2 : isToolUseEvent e = false := Bool.eq_false_iff.mpr htu
      have hf : (e :: rest).filter (fun e => isCLEEvent e || isToolUseEvent e)
          = rest.filter (fun e => isCLEEvent e || isToolUseEvent e) := by
        simp [List.filter_cons, hcle2, htu2]
      rw [hf, hcle2, htu2]
      simp

theorem generate_final_chunk_finish (ctx : StreamContext) :
    (stream.generate_final_chunk ctx).head?.map
        (fun ch => ch.choices.map (fun c => c.finish_reason)) =
      some [some (match ctx.finish_reason with
        | some r => r
        | none => if ctx.has_tool_use then toolCallsLit else stopLit)] := by
  unfold stream.generate_final_chunk
  dsimp only
  split <;> rfl

/-- C3 (amended): for the streaming transcoder the finish reason is order
independent as claimed: length when a ContentLengthExceededException was
observed anywhere, else tool_calls when any ToolUse was observed, else stop.
The non-streaming collector instead resolves conflicts last-writer-wins: its
finish reason is decided by the last event that is either a CLE exception or
a ToolUse (stop when there is none), which agrees with the order-independent
rule exactly when no ToolUse follows a CLE exception. -/
theorem finish_reason_policy (m rid : Str) (cr it input_tokens : Int) (iu : Bool)
    (evs : List Event) :
    ((stream.generate_final_chunk
        (stream.processEvents (StreamContext.new m rid cr it iu) evs).1).head?.map
        (fun ch => ch.choices.map (fun c => c.finish_reason)))
      = some [some (observedFinish evs)] ∧
    (handlers.collectEvents evs).finish_reason = lastWriterFinish evs ∧
    ((handlers.build_non_stream_response rid cr m input_tokens evs).choices.map
        (fun c => c.finish_reason)) = [some (lastWriterFinish evs)] := by
  have hcol : (handlers.collectEvents evs).finish_reason = lastWriterFinish evs := by
    unfold handlers.collectEvents
    rw [collectFold_finish, foldFinish_eq]
    rfl
  refine ⟨?_, hcol, ?_⟩
  · rw [generate_final_chunk_finish, processEvents_finish, processEvents_has_tool_use]
    unfold observedFinish
    by_cases hc : evs.any isCLEEvent = true
    · simp [hc]
    · rw [Bool.not_eq_true] at hc
      simp [hc, StreamContext.new]
  · unfold handlers.build_non_stream_response
    dsimp only
    rw [hcol]
    rfl

/-- C3 counterexample: when a ContentLengthExceededException is followed by a
ToolUse event, the non-streaming collector reports tool_calls, not the length
the claim requires for any sequence containing the exception. -/
theorem finish_reason_order_counterexample :
    c3Evs.any isCLEEvent = true ∧
    (handlers.collectEvents c3Evs).finish_reason = toolCallsLit ∧
    (handlers.collectEvents c3Evs).finish_reason ≠ lengthLit :=
  ⟨by decide, by decide, by decide⟩

/-- C4 (amended): a ContextUsage observation overrides the estimated prompt
tokens in both the streaming and the non-streaming path, with the value
obtained by truncating percentage * 200000 / 100 toward zero (the as-i32
cast of the source), not by rounding; the percentage of the last ContextUsage
event wins, and at percentage 10 the value is 20000 exactly as the claim
states. -/
theorem context_usage_override (m rid : Str) (cr it input_tokens : Int) (iu : Bool)
    (evs : List Event) (p : ℚ) (h : lastContextUsage evs = some p) :
    (stream.get_usage
        (stream.processEvents (StreamContext.new m rid cr it iu) evs).1).prompt_tokens
      = i32TruncOfRat (p * 200000 / 100) ∧
    ((handlers.build_non_stream_response rid cr m input_tokens evs).usage.map
        (fun u => u.prompt_tokens)) = some (i32TruncOfRat (p * 200000 / 100)) ∧
    (p = 10 → i32TruncOfRat (p * 200000 / 100) = 20000) := by
  have hcw : ((CONTEXT_WINDOW_SIZE : Int) : ℚ) = (200000 : ℚ) := by
    norm_num [CONTEXT_WINDOW_SIZE]
  refine ⟨?_, ?_, ?_⟩
  · unfold stream.get_usage
    dsimp only
    rw [processEvents_context_tokens, h, hcw]
    rfl
  · unfold handlers.build_non_stream_response
    dsimp only
    unfold handlers.collectEvents
    rw [collectFold_context, h]
    rfl
  · intro hp
    subst hp
    norm_num [i32TruncOfRat]

theorem context_usage_override_witness :
    (stream.get_usage
        (stream.processEvents (StreamContext.new ("m".data) ("r".data) 0 777 true)
          c4WitnessEvs).1).prompt_tokens = 20000 := by
  have h := context_usage_override ("m".data) ("r".data) 0 777 5 true c4WitnessEvs 10 rfl
  exact h.1.trans (h.2.2 rfl)

/-- C4 counterexample: at percentage 1/32 (a dyadic rational, exact in f64,
with 1/32 * 200000 / 100 = 62.5) the code reports 62 prompt tokens while the
claimed rounding would give 63. -/
theorem context_usage_round_counterexample :
    (stream.get_usage
        (stream.processEvents (StreamContext.new ("m".data) ("r".data) 0 5 false)
          c4Evs).1).prompt_tokens = 62 ∧
    (round ((1 / 32 : ℚ) * 200000 / 100) : Int) = 63 ∧
    (stream.get_usage
        (stream.processEvents (StreamContext.new ("m".data) ("r".data) 0 5 false)
          c4Evs).1).prompt_tokens
      ≠ (round ((1 / 32 : ℚ) * 200000 / 100) : Int) := by
  have h1 : (stream.get_usage
      (stream.processEvents (StreamContext.new ("m".data) ("r".data) 0 5 false)
        c4Evs).1).prompt_tokens = 62 := by
    have h := context_usage_override ("m".data) ("r".data) 0 5 5 false c4Evs (1 / 32) rfl
    refine h.1.trans ?_
    norm_num [i32TruncOfRat]
  have h2 : (round ((1 / 32 : ℚ) * 200000 / 100) : Int) = 63 := by
    rw [round_eq]
    norm_num
  refine ⟨h1, h2, ?_⟩
  rw [h1, h2]
  decide

theorem usersClosed_cons_cons {u a : KMessage} (hu : isUserMsg u = true)
    (ha : isAssistantMsg a = true) (h : List KMessage) :
    usersClosed (u :: a :: h) = usersClosed (a :: h) := by
  cases u with
  | user c mid imgs =>
    cases a with
    | assistant c2 t2 => rfl
    | user c2 m2 i2 => simp [isAssistantMsg] at ha
  | assistant c t => simp [isUserMsg] at hu

theorem usersClosed_cons_assistant {a : KMessage} (ha : isAssistantMsg a = true)
    (h : List KMessage) : usersClosed (a :: h) = usersClosed h := by
  cases a with
  | assistant c t => rfl
  | user c m i => simp [isAssistantMsg] at ha

theorem usersClosed_user_cons {c mid : Str} {imgs : List KiroImage} {rest : List KMessage}
    (h : usersClosed (KMessage.user c mid imgs :: rest) = true) :
    ∃ c2 t2 rest2, rest = KMessage.assistant c2 t2 :: rest2 ∧ usersClosed rest = true := by
  cases rest with
  | nil => simp [usersClosed] at h
  | cons x xs =>
    cases x with
    | user c2 m2 i2 => simp [usersClosed] at h
    | assistant c2 t2 => exact ⟨c2, t2, xs, rfl, h⟩

theorem usersClosed_append_assistant {a : KMessage} (ha : isAssistantMsg a = true) :
    ∀ h : List KMessage, usersClosed h = true → lastIsAssistant h = true →
      usersClosed (h ++ [a]) = true := by
  intro h
  induction h with
  | nil =>
    intro _ _
    cases a with
    | assistant c t => rfl
    | user c m i => simp [isAssistantMsg] at ha
  | cons m rest ih =>
    intro hc hl
    cases m with
    | assistant c t =>
      have hlr : lastIsAssistant rest = true := by
        cases rest with
        | nil => rfl
        | cons x xs => exact hl
      exact ih hc hlr
    | user c mid imgs =>
      obtain ⟨c2, t2, rest2, hrest, hcr⟩ := usersClosed_user_cons hc
      subst hrest
      exact ih hcr hl

theorem usersClosed_append_pair {u a : KMessage} (hu : isUserMsg u = true)
    (ha : isAssistantMsg a = true) :
    ∀ h : List KMessage, usersClosed h = true → lastIsAssistant h = true →
      usersClosed (h ++ [u, a]) = true := by
  intro h
  induction h with
  | nil =>
    intro _ _
    cases u with
    | user c m i =>
      cases a with
      | assistant c2 t2 => rfl
      | user c2 m2 i2 => simp [isAssistantMsg] at ha
    | assistant c t => simp [isUserMsg] at hu
  | cons m rest ih =>
    intro hc hl
    cases m with
    | assistant c t =>
      have hlr : lastIsAssistant rest = true := by
        cases rest with
        | nil => rfl
        | cons x xs => exact hl
      exact ih hc hlr
    | user c mid imgs =>
      obtain ⟨c2, t2, rest2, hrest, hcr⟩ := usersClosed_user_cons hc
      subst hrest
      exact ih hcr hl

theorem lastIsAssistant_append_assistant {a : KMessage} (ha : isAssistantMsg a = true)
    (h : List KMessage) : lastIsAssistant (h ++ [a]) = true := by
  induction h with
  | nil =>
    cases a with
    | assistant c t => rfl
    | user c m i => simp [isAssistantMsg] at ha
  | cons m rest ih =>
    cases rest with
    | nil => exact ih
    | cons x xs => exact ih

theorem lastIsAssistant_append_pair {u a : KMessage} (ha : isAssistantMsg a = true)
    (h : List KMessage) : lastIsAssistant (h ++ [u, a]) = true := by
  induction h with
  | nil =>
    cases a with
    | assistant c t => rfl
    | user c m i => simp [isAssistantMsg] at ha
  | cons m rest ih =>
    cases rest with
    | nil => exact ih
    | cons x xs => exact ih

theorem isAssistantMsg_convert (msg : ChatMessage) :
    isAssistantMsg (convert_assistant_message msg) = true := rfl

theorem isUserMsg_merge (buffer : List (Str × List KiroImage)) (model_id : Str) :
    isUserMsg (merge_user_buffer buffer model_id) = true := rfl

theorem processRound_inv {model_id : Str} {st : PMState} {msg : ChatMessage}
    {is_last : Bool} {st' : PMState}
    (h : processRound model_id st msg is_last = .ok st')
    (hc : usersClosed st.history = true) (hl : lastIsAssistant st.history = true) :
    usersClosed st'.history = true ∧ lastIsAssistant st'.history = true := by
  unfold processRound at h
  by_cases h1 : (msg.role == systemLit) = true
  · rw [if_pos h1] at h
    injection h with h
    subst h
    exact ⟨hc, hl⟩
  · rw [if_neg h1] at h
    by_cases h2 : (msg.role == userLit) = true
    · rw [if_pos h2] at h
      cases hec : extract_content_with_images msg.content with
      | error e => rw [hec] at h; simp [Bind.bind, Except.bind] at h
      | ok ti =>
        obtain ⟨text, images⟩ := ti
        rw [hec] at h
        simp only [Bind.bind, Except.bind] at h
        split at h <;> (injection h with h; subst h; exact ⟨hc, hl⟩)
    · rw [if_neg h2] at h
      by_cases h3 : (msg.role == assistantLit) = true
      · rw [if_pos h3] at h
        by_cases h4 : st.user_buffer.isEmpty = true
        · rw [if_pos h4] at h
          injection h with h
          subst h
          dsimp only
          exact ⟨usersClosed_append_assistant (isAssistantMsg_convert msg) _ hc hl,
            lastIsAssistant_append_assistant (isAssistantMsg_convert msg) _⟩
        · rw [if_neg h4] at h
          injection h with h
          subst h
          dsimp only
          rw [List.append_assoc]
          exact ⟨usersClosed_append_pair (isUserMsg_merge _ _) (isAssistantMsg_convert msg)
              _ hc hl,
            lastIsAssistant_append_pair (isAssistantMsg_convert msg) _⟩
      · rw [if_neg h3] at h
        by_cases h5 : (msg.role == toolLit) = true
        · rw [if_pos h5] at h
          cases htc : msg.tool_call_id with
          | some tcid => rw [htc] at h; injection h with h; subst h; exact ⟨hc, hl⟩
          | none => rw [htc] at h; injection h with h; subst h; exact ⟨hc, hl⟩
        · rw [if_neg h5] at h
          injection h with h
          subst h
          exact ⟨hc, hl⟩

theorem processLoop_inv {model_id : Str} :
    ∀ (msgs : List ChatMessage) (st st' : PMState),
      processLoop model_id st msgs = .ok st' →
      usersClosed st.history = true → lastIsAssistant st.history = true →
      usersClosed st'.history = true ∧ lastIsAssistant st'.history = true := by
  intro msgs
  induction msgs with
  | nil =>
    intro st st' h hc hl
    simp only [processLoop] at h
    injection h with h
    subst h
    exact ⟨hc, hl⟩
  | cons msg rest ih =>
    intro st st' h hc hl
    simp only [processLoop] at h
    cases hr : processRound model_id st msg rest.isEmpty with
    | error e => rw [hr] at h; simp [Bind.bind, Except.bind] at h
    | ok st1 =>
      rw [hr] at h
      simp only [Bind.bind, Except.bind] at h
      obtain ⟨hc1, hl1⟩ := processRound_inv hr hc hl
      exact ih st1 st' h hc1 hl1

theorem flush_inv (model_id : Str) {st : PMState}
    (hc : usersClosed st.history = true) (hl : lastIsAssistant st.history = true) :
    usersClosed (flushTrailingUsers model_id st).history = true ∧
      lastIsAssistant (flushTrailingUsers model_id st).history = true := by
  unfold flushTrailingUsers
  split
  · exact ⟨hc, hl⟩
  · dsimp only
    exact ⟨usersClosed_append_pair (isUserMsg_merge _ _)
        (show isAssistantMsg (KMessage.assistant okLit none) = true from rfl) _ hc hl,
      lastIsAssistant_append_pair
        (show isAssistantMsg (KMessage.assistant okLit none) = true from rfl) _⟩

theorem process_messages_inv {messages : List ChatMessage} {model_id sys : Str}
    {hist : List KMessage} {lu : Str} {li : List KiroImage} {tr : List KToolResult}
    (h : process_messages messages model_id = .ok (sys, hist, lu, li, tr)) :
    usersClosed hist = true ∧ lastIsAssistant hist = true := by
  unfold process_messages at h
  cases hp : processLoop model_id initPMState messages with
  | error e => rw [hp] at h; simp [Bind.bind, Except.bind] at h
  | ok st =>
    rw [hp] at h
    simp only [Bind.bind, Except.bind] at h
    obtain ⟨hc, hl⟩ := processLoop_inv messages initPMState st hp rfl rfl
    obtain ⟨hc2, hl2⟩ := flush_inv model_id hc hl
    injection h with h
    have hh : (flushTrailingUsers model_id st).history = hist := congrArg (fun t => t.2.1) h
    rw [hh] at hc2 hl2
    exact ⟨hc2, hl2⟩

/-- C2 (amended): for every OpenAI request on which convert_request succeeds,
the emitted history contains no user entry that is not immediately followed
by an assistant entry, and its last element is an assistant entry whenever it
is non-empty. Strict alternation starting with user additionally fails only
when an assistant message arrives with no pending user input, in which case a
lone assistant entry is appended (see the counterexample). -/
theorem convert_request_history_shape (cid aid : Str) (req : ChatCompletionRequest)
    (r : ConversionResult) (h : convert_request cid aid req = .ok r) :
    usersClosed r.conversation_state.history = true ∧
    (r.conversation_state.history ≠ [] →
      lastIsAssistant r.conversation_state.history = true) := by
  unfold convert_request at h
  cases hm : map_model req.model with
  | none => rw [hm] at h; simp [Bind.bind, Except.bind] at h
  | some model_id =>
    rw [hm] at h
    simp only [Bind.bind, Except.bind] at h
    split at h
    · simp at h
    · cases hp : process_messages req.messages model_id with
      | error e => rw [hp] at h; simp [Bind.bind, Except.bind] at h
      | ok tup =>
        obtain ⟨sys, hist, lu, li, tr⟩ := tup
        rw [hp] at h
        simp only [Bind.bind, Except.bind] at h
        injection h with h
        subst h
        obtain ⟨hc, hl⟩ := process_messages_inv hp
        dsimp only
        split
        · exact ⟨hc, fun _ => hl⟩
        · constructor
          · rw [List.cons_append, List.cons_append,
              usersClosed_cons_cons
                (show isUserMsg (KMessage.user sys model_id []) = true from rfl)
                (show isAssistantMsg (KMessage.assistant followInstructionsLit none) = true
                  from rfl),
              usersClosed_cons_assistant
                (show isAssistantMsg (KMessage.assistant followInstructionsLit none) = true
                  from rfl)]
            exact hc
          · intro _
            cases hist with
            | nil => rfl
            | cons x xs => exact hl

/-- C2 counterexample: a conversation whose first message is an assistant
message converts successfully to a history whose first entry is a lone
assistant entry, so the history does not alternate starting with user. -/
theorem convert_history_alternation_counterexample :
    (convert_request c2Cid c2Aid c2Req).toOption.map
        (fun r => alternatesFromUser r.conversation_state.history &&
          (r.conversation_state.history.isEmpty ||
            lastIsAssistant r.conversation_state.history)) = some false := by
  decide

theorem convert_request_history_shape_witness :
    usersClosed c2WitnessResult.conversation_state.history = true ∧
    (c2WitnessResult.conversation_state.history ≠ [] →
      lastIsAssistant c2WitnessResult.conversation_state.history = true) := by
  have h : convert_request c2Cid c2Aid c2WitnessReq = .ok c2WitnessResult := rfl
  exact convert_request_history_shape c2Cid c2Aid c2WitnessReq c2WitnessResult h

theorem findSub_some_isPrefixL {pat l : Str} {i : Nat} (h : findSub pat l = some i) :
    isPrefixL pat (l.drop i) = true := by
  induction l generalizing i with
  | nil =>
    unfold findSub at h
    split at h
    · next hp =>
      injection h with h
      subst h
      exact hp
    · simp at h
  | cons c rest ih =>
    unfold findSub at h
    split at h
    · next hp =>
      injection h with h
      subst h
      exact hp
    · cases hf : findSub pat rest with
      | none => rw [hf] at h; simp at h
      | some j =>
        rw [hf] at h
        simp only [Option.map_some'] at h
        injection h with h
        subst h
        exact ih hf

theorem findSub_le_length {pat l : Str} {i : Nat} (h : findSub pat l = some i) :
    i ≤ l.length := by
  induction l generalizing i with
  | nil =>
    unfold findSub at h
    split at h
    · injection h with h; subst h; exact Nat.le_refl 0
    · simp at h
  | cons c rest ih =>
    unfold findSub at h
    split at h
    · injection h with h; subst h; exact Nat.zero_le _
    · cases hf : findSub pat rest with
      | none => rw [hf] at h; simp at h
      | some j =>
        rw [hf] at h
        simp only [Option.map_some'] at h
        injection h with h
        subst h
        exact Nat.succ_le_succ (ih hf)

theorem findSub_bound {pat l : Str} {i : Nat} (h : findSub pat l = some i) :
    i + pat.length ≤ l.length := by
  have h1 := findSub_le_length h
  have h2 := isPrefixL_length_le (findSub_some_isPrefixL h)
  rw [List.length_drop] at h2
  omega

theorem findSub_nil {pat : Str} (hne : pat ≠ []) : findSub pat [] = none := by
  cases pat with
  | nil => exact absurd rfl hne
  | cons a as => rfl

theorem findSub_take_none {pat : Str} (hne : pat ≠ []) :
    ∀ {l : Str} {s : Nat}, findSub pat l = some s → findSub pat (l.take s) = none := by
  intro l
  induction l with
  | nil =>
    intro s h
    rw [List.take_nil]
    exact findSub_nil hne
  | cons c rest ih =>
    intro s h
    unfold findSub at h
    split at h
    · injection h with h
      subst h
      rw [List.take_zero]
      exact findSub_nil hne
    · next hp =>
      cases hf : findSub pat rest with
      | none => rw [hf] at h; simp at h
      | some j =>
        rw [hf] at h
        simp only [Option.map_some'] at h
        injection h with h
        subst h
        rw [show (c :: rest).take (j + 1) = c :: rest.take j from rfl]
        have hnp : ¬ (isPrefixL pat (c :: rest.take j) = true) := by
          intro hcontra
          have hpre2 : isPrefixL (c :: rest.take j) (c :: rest) = true := by
            simp only [isPrefixL, beq_self_eq_true, Bool.true_and]
            exact isPrefixL_take j rest
          exact hp (isPrefixL_trans hcontra hpre2)
        unfold findSub
        rw [if_neg hnp, ih hf]
        rfl

theorem filterThinkingAux_succ (fuel : Nat) (l : Str) :
    filterThinkingAux (fuel + 1) l =
      (match findSub thinkOpenLit l with
       | none => l
       | some start =>
         match findSub thinkCloseLit (l.drop start) with
         | none => l.take start
         | some e =>
           let end_pos := start + e + thinkCloseLit.length
           let after := l.drop end_pos
           let trim_len : Nat :=
             if isPrefixL twoNlLit after then 2
             else if isPrefixL nlStr after then 1
             else 0
           filterThinkingAux fuel (l.take start ++ l.drop (end_pos + trim_len))) := rfl

theorem filterAux_no_open :
    ∀ (fuel : Nat) (l : Str), l.length < fuel →
      findSub thinkOpenLit (filterThinkingAux fuel l) = none := by
  intro fuel
  induction fuel with
  | zero => intro l h; exact absurd h (Nat.not_lt_zero _)
  | succ n ih =>
    intro l h
    rw [filterThinkingAux_succ]
    cases h1 : findSub thinkOpenLit l with
    | none => exact h1
    | some start =>
      dsimp only
      cases h2 : findSub thinkCloseLit (l.drop start) with
      | none => exact findSub_take_none (by decide) h1
      | some e =>
        dsimp only
        apply ih
        have hb1 := findSub_bound h1
        have hb2 := findSub_bound h2
        rw [List.length_drop] at hb2
        have ho : thinkOpenLit.length = 10 := rfl
        have hc : thinkCloseLit.length = 11 := rfl
        rw [ho] at hb1
        rw [hc] at hb2
        rw [List.length_append, List.length_take, List.length_drop, hc]
        omega

theorem filterThinking_no_open (l : Str) :
    findSub thinkOpenLit (stream.filter_thinking_tags l) = none :=
  filterAux_no_open (l.length + 1) l (Nat.lt_succ_self _)

/-- C6: applying the thinking-tag filter twice yields the same result as
applying it once, for both the stream.rs copy and the handlers.rs copy of
filter_thinking_tags: one pass leaves no thinking open tag behind (a matched
span is excised and an unmatched open tag truncates the string at a position
before the first occurrence), so a second pass finds nothing to remove. -/
theorem filter_thinking_tags_idempotent (s : Str) :
    stream.filter_thinking_tags (stream.filter_thinking_tags s)
        = stream.filter_thinking_tags s ∧
    handlers.filter_thinking_tags (handlers.filter_thinking_tags s)
        = handlers.filter_thinking_tags s := by
  have key : ∀ t : Str, findSub thinkOpenLit t = none →
      filterThinkingAux (t.length + 1) t = t := by
    intro t ht
    rw [filterThinkingAux_succ, ht]
  constructor
  · exact key _ (filterAux_no_open (s.length + 1) s (Nat.lt_succ_self _))
  · exact key _ (filterAux_no_open (s.length + 1) s (Nat.lt_succ_self _))
